import Mathlib

/-!
Verification of the BMP tool (src/BMP.C): a 24-bpp bitmap codec
(`load_bmp24` / `save_bmp24`), an in-place grayscale transform
(`to_grayscale`) and a 3x3 convolution engine (`convolve3x3`).

The C code is shallowly embedded as follows.

* A byte stream (the contents of a file) is a `List Nat`, each entry one
  byte (theorems about arbitrary accepted streams carry the hypothesis
  that every entry is `< 256`).
* The two packed header structs are Lean structures holding the decoded
  field values; `fread` of a packed struct is modelled by little-endian
  field extraction at the struct's byte offsets, and `fwrite` by the
  corresponding little-endian serialization.  Signed 32-bit fields use a
  two's-complement reading into `Int`.
* The pixel buffer produced by `load_bmp24` is a list of rows (top-down,
  matching the C comment "ordenado de arriba a abajo"), each row a list
  of `Pixel24` records with byte fields `b`, `g`, `r` in the order they
  sit in the file.
* C `double` arithmetic in `to_grayscale` is embedded exactly: an IEEE-754
  binary64 value is a dyadic rational `m * 2 ^ e`, and each C arithmetic
  operation performs the exact operation followed by rounding of the
  result to a 53-bit significand with round-to-nearest, ties-to-even
  (the IEEE default, which is the semantics of the expression
  `0.299 * r + 0.587 * g + 0.114 * b + 0.5` compiled with SSE2 doubles,
  no FMA contraction, as by the compile command in the file header).
  The decimal literals `0.299`, `0.587`, `0.114` are embedded as the
  doubles nearest to them.
* The `float` kernel weights of `convolve3x3` are embedded as exact
  rationals (the spec's "3x3 kernel of real-valued weights"); sums,
  products and the division by the kernel sum are exact rational
  arithmetic, and the C casts `(int)` are truncation toward zero.
-/

/-- Pixel24: one 24-bit pixel, fields in the file/order of the C struct
`{ uint8_t b, g, r; }`. -/
structure Pixel24 where
  b : Nat
  g : Nat
  r : Nat
deriving DecidableEq, Repr

/-- BMPHeader: the decoded fields of the 14-byte packed file header. -/
structure BMPHeader where
  bfType : Nat
  bfSize : Nat
  bfReserved1 : Nat
  bfReserved2 : Nat
  bfOffBits : Nat
deriving DecidableEq, Repr

/-- BMPInfoHeader: the decoded fields of the 40-byte packed info header.
`biWidth`, `biHeight` and the two resolution fields are signed 32-bit in
the C struct, hence `Int` here. -/
structure BMPInfoHeader where
  biSize : Nat
  biWidth : Int
  biHeight : Int
  biPlanes : Nat
  biBitCount : Nat
  biCompression : Nat
  biSizeImage : Nat
  biXPelsPerMeter : Int
  biYPelsPerMeter : Int
  biClrUsed : Nat
  biClrImportant : Nat
deriving DecidableEq, Repr

/-- byteAt: the byte of a stream at an offset (reads past the end give 0,
but every use below is guarded by a length check, as `fread` is). -/
def byteAt (data : List Nat) (i : Nat) : Nat :=
  data.getD i 0

/-- le2: little-endian 16-bit value at a byte offset. -/
def le2 (data : List Nat) (i : Nat) : Nat :=
  byteAt data i + 256 * byteAt data (i + 1)

/-- le4: little-endian 32-bit value at a byte offset. -/
def le4 (data : List Nat) (i : Nat) : Nat :=
  byteAt data i + 256 * byteAt data (i + 1) + 65536 * byteAt data (i + 2) +
    16777216 * byteAt data (i + 3)

/-- sle4: little-endian signed (two's-complement) 32-bit value at a byte
offset. -/
def sle4 (data : List Nat) (i : Nat) : Int :=
  let u := le4 data i
  if u < 2 ^ 31 then (u : Int) else (u : Int) - 2 ^ 32

/-- parseFH: the fields of the packed `BMPHeader` read by
`fread(&fh, sizeof(fh), 1, f)` from the start of the stream
(offsets 0, 2, 6, 8, 10). -/
def parseFH (data : List Nat) : BMPHeader :=
  ⟨le2 data 0, le4 data 2, le2 data 6, le2 data 8, le4 data 10⟩

/-- parseIH: the fields of the packed `BMPInfoHeader` read by
`fread(&ih, sizeof(ih), 1, f)` right after the file header
(offsets 14, 18, 22, 26, 28, 30, 34, 38, 42, 46, 50). -/
def parseIH (data : List Nat) : BMPInfoHeader :=
  ⟨le4 data 14, sle4 data 18, sle4 data 22, le2 data 26, le2 data 28,
    le4 data 30, le4 data 34, sle4 data 38, sle4 data 42, le4 data 46,
    le4 data 50⟩

/-- paddingOf: the per-row padding `(4 - (width*3 % 4)) % 4` computed
identically at line 108 (decode) and line 158 (encode) of BMP.C. -/
def paddingOf (w : Nat) : Nat :=
  (4 - (3 * w) % 4) % 4

/-- bytesToPixels: packs consecutive byte triples into `Pixel24` records,
exactly as `fread(row, 3, width, f)` fills an array of the packed
3-byte struct. -/
def bytesToPixels : List Nat → List Pixel24
  | b :: g :: r :: rest => ⟨b, g, r⟩ :: bytesToPixels rest
  | _ => []

/-- readRow: one iteration's `fread(row, 3, width, f)` at stream
position `pos`: it yields `width` pixels when at least `3 * width`
bytes remain, and fails (short read, "Lectura de fila incompleta")
otherwise. -/
def readRow (data : List Nat) (pos w : Nat) : Option (List Pixel24) :=
  if pos + 3 * w ≤ data.length then
    some (bytesToPixels ((data.drop pos).take (3 * w)))
  else none

/-- readRows: the row-reading loop of `load_bmp24` (lines 119-134):
reads `n` rows of `w` pixels starting at `pos`, skipping `pad` bytes
after each row, in file (bottom-to-top) order. -/
def readRows (data : List Nat) (pos w pad : Nat) : Nat → Option (List (List Pixel24))
  | 0 => some []
  | n + 1 =>
    match readRow data pos w with
    | none => none
    | some row =>
      match readRows data (pos + 3 * w + pad) w pad n with
      | none => none
      | some rest => some (row :: rest)

/-- load_bmp24: the decoder (BMP.C lines 56-141).  The returned pixel
buffer is the list of rows top-down (the loop writes file row `y` to
buffer row `height - 1 - y`, which makes the buffer the reverse of the
file's bottom-up row order).  Every failure path of the C function
returns the single untagged value `0`, modelled as `none`; the distinct
`fprintf` diagnostics go to stderr and are not part of the returned
value.  The `fopen` failure path concerns the surrounding OS and is not
modelled; the `malloc` result is assumed non-null here (decoding only
ever allocates `width * height` pixels). -/
def load_bmp24 (data : List Nat) :
    Option (BMPHeader × BMPInfoHeader × List (List Pixel24)) :=
  if data.length < 14 then none
  else if data.length < 54 then none
  else if (parseFH data).bfType ≠ 0x4D42 then none
  else if (parseIH data).biBitCount ≠ 24 ∨ (parseIH data).biCompression ≠ 0 then
    none
  else if (parseIH data).biWidth ≤ 0 ∨ (parseIH data).biHeight ≤ 0 then none
  else
    match readRows data (parseFH data).bfOffBits (parseIH data).biWidth.toNat
      (paddingOf (parseIH data).biWidth.toNat) (parseIH data).biHeight.toNat with
    | none => none
    | some fileRows => some (parseFH data, parseIH data, fileRows.reverse)

/-- ser2: the two bytes written for a 16-bit field. -/
def ser2 (v : Nat) : List Nat :=
  [v % 256, v / 256 % 256]

/-- ser4: the four little-endian bytes written for a 32-bit field. -/
def ser4 (v : Nat) : List Nat :=
  [v % 256, v / 256 % 256, v / 65536 % 256, v / 16777216 % 256]

/-- serI4: the four bytes written for a signed 32-bit field
(two's-complement; `%` on `Int` is the nonnegative Euclidean
remainder). -/
def serI4 (v : Int) : List Nat :=
  ser4 (v % 2 ^ 32).toNat

/-- serFH: the 14 bytes written by `fwrite(&fh, sizeof(fh), 1, f)`. -/
def serFH (fh : BMPHeader) : List Nat :=
  ser2 fh.bfType ++ ser4 fh.bfSize ++ ser2 fh.bfReserved1 ++
    ser2 fh.bfReserved2 ++ ser4 fh.bfOffBits

/-- serIH: the 40 bytes written by `fwrite(&ih, sizeof(ih), 1, f)`. -/
def serIH (ih : BMPInfoHeader) : List Nat :=
  ser4 ih.biSize ++ serI4 ih.biWidth ++ serI4 ih.biHeight ++
    ser2 ih.biPlanes ++ ser2 ih.biBitCount ++ ser4 ih.biCompression ++
    ser4 ih.biSizeImage ++ serI4 ih.biXPelsPerMeter ++
    serI4 ih.biYPelsPerMeter ++ ser4 ih.biClrUsed ++ ser4 ih.biClrImportant

/-- pixelsToBytes: the bytes written for one pixel row by
`fwrite(row, 3, width, f)`. -/
def pixelsToBytes (row : List Pixel24) : List Nat :=
  row.flatMap fun p => [p.b, p.g, p.r]

/-- saveImageSize: the `uint32_t image_size = (row_bytes + padding) *
(uint32_t)height` of BMP.C line 159 (32-bit arithmetic, hence the
reduction mod `2 ^ 32`). -/
def saveImageSize (ih : BMPInfoHeader) : Nat :=
  ((3 * ih.biWidth.toNat + paddingOf ih.biWidth.toNat) * ih.biHeight.toNat) %
    2 ^ 32

/-- saveIH: the info header actually written by `save_bmp24`
(BMP.C lines 162-169): the caller's header with the size, compression,
bit-count, plane and image-size fields overwritten. -/
def saveIH (ih : BMPInfoHeader) : BMPInfoHeader :=
  { ih with
    biSize := 40, biCompression := 0, biBitCount := 24, biPlanes := 1,
    biSizeImage := saveImageSize ih }

/-- saveFH: the file header written by `save_bmp24` (BMP.C lines
171-175): magic, total size (`uint32_t` sum), zero reserved fields and
the fixed pixel offset 54. -/
def saveFH (ih : BMPInfoHeader) : BMPHeader :=
  ⟨0x4D42, (54 + saveImageSize ih) % 2 ^ 32, 0, 0, 54⟩

/-- save_bmp24: the encoder (BMP.C lines 144-205), as the byte stream it
writes (the `fopen`/`fwrite` failure paths return the OS failure to the
caller; the claims below concern the written content).  The C reads
`width`/`height` as `int` from the caller's info header — the encoder
is only ever invoked with the header of a successful decode, so both
are positive and `toNat` is exact.  Rows are written bottom-up
(`for (y = height - 1; y >= 0; --y)`), i.e. the reverse of the
top-down buffer, each row's `width` pixels followed by `padding` zero
bytes. -/
def save_bmp24 (src_ih : BMPInfoHeader) (pixels : List (List Pixel24)) :
    List Nat :=
  serFH (saveFH src_ih) ++ serIH (saveIH src_ih) ++
    (pixels.reverse.map fun row =>
      pixelsToBytes row ++
        List.replicate (paddingOf src_ih.biWidth.toNat) 0).flatten

/-- clamp_int_to_u8: BMP.C lines 45-52. -/
def clamp_int_to_u8 (v : Int) : Nat :=
  if v < 0 then 0 else if v > 255 then 255 else v.toNat

/-- Dyadic: an IEEE-754 binary64 value represented exactly as the
rational `m * 2 ^ e` (every finite double is such a number).  All values
arising in `to_grayscale` are far inside the normal range, so neither
overflow nor subnormals can occur and rounding to a 53-bit significand
is the entire IEEE semantics of each operation. -/
structure Dyadic where
  m : Int
  e : Int
deriving DecidableEq, Repr

/-- bitLen: number of binary digits of a natural number (fuel-bounded
structural recursion so that the kernel can evaluate it; the fuel used
below always exceeds the bit count). -/
def bitLen : Nat → Nat → Nat
  | _, 0 => 0
  | 0, _ + 1 => 0
  | f + 1, n + 1 => bitLen f ((n + 1) / 2) + 1

/-- rne53: rounds `m / 2 ^ k` to the nearest integer, ties to even —
the IEEE-754 default rounding applied to a value whose significand has
`k` excess bits. -/
def rne53 (m : Int) (k : Nat) : Int :=
  let d : Int := 2 ^ k
  let q := Int.fdiv m d
  let r := m - q * d
  if 2 * r < d then q
  else if d < 2 * r then q + 1
  else if Int.emod q 2 = 0 then q else q + 1

/-- roundD: rounds an exact dyadic value to the nearest binary64
(53-bit significand, ties to even), the result normalized so that
`2 ^ 52 ≤ |m| < 2 ^ 53` (or `m = 0`). -/
def roundD (x : Dyadic) : Dyadic :=
  if x.m = 0 then ⟨0, 0⟩
  else
    let L := bitLen 200 x.m.natAbs
    if L ≤ 53 then ⟨x.m * 2 ^ (53 - L), x.e - (53 - L)⟩
    else
      let k := L - 53
      let m2 := rne53 x.m k
      if m2.natAbs = 2 ^ 53 then ⟨Int.fdiv m2 2, x.e + (k + 1)⟩
      else ⟨m2, x.e + (k : Int)⟩

/-- dmul: IEEE binary64 multiplication — the exact product, rounded. -/
def dmul (a b : Dyadic) : Dyadic :=
  roundD ⟨a.m * b.m, a.e + b.e⟩

/-- dadd: IEEE binary64 addition — the exact sum (computed by aligning
the exponents), rounded. -/
def dadd (a b : Dyadic) : Dyadic :=
  if a.e ≤ b.e then roundD ⟨a.m + b.m * 2 ^ (b.e - a.e).toNat, a.e⟩
  else roundD ⟨a.m * 2 ^ (a.e - b.e).toNat + b.m, b.e⟩

/-- d299: the binary64 value of the C literal `0.299`
(5386305154335113 * 2 ^ -54, the double nearest 299/1000). -/
def d299 : Dyadic := ⟨5386305154335113, -54⟩

/-- d587: the binary64 value of the C literal `0.587`
(5287225962532962 * 2 ^ -53, the double nearest 587/1000). -/
def d587 : Dyadic := ⟨5287225962532962, -53⟩

/-- d114: the binary64 value of the C literal `0.114`
(8214565720323785 * 2 ^ -56, the double nearest 114/1000). -/
def d114 : Dyadic := ⟨8214565720323785, -56⟩

/-- dhalf: the binary64 value of the C literal `0.5` (exact). -/
def dhalf : Dyadic := ⟨1, -1⟩

/-- dtrunc: the C cast `(int)` of a double — truncation toward zero. -/
def dtrunc (x : Dyadic) : Int :=
  if 0 ≤ x.e then x.m * 2 ^ x.e.toNat
  else Int.tdiv x.m (2 ^ (-x.e).toNat)

/-- grayD: the value `(int)(0.299 * r + 0.587 * g + 0.114 * b + 0.5)`
of BMP.C line 215, with the expression evaluated left-to-right in
binary64 as C does (`r`, `g`, `b` are converted to double exactly). -/
def grayD (r g b : Nat) : Int :=
  dtrunc (dadd (dadd (dadd (dmul d299 ⟨(r : Int), 0⟩)
    (dmul d587 ⟨(g : Int), 0⟩)) (dmul d114 ⟨(b : Int), 0⟩)) dhalf)

/-- grayPixel: the per-pixel body of the `to_grayscale` loop
(BMP.C lines 212-217): all three channels become the clamped gray
value. -/
def grayPixel (p : Pixel24) : Pixel24 :=
  let g8 := clamp_int_to_u8 (grayD p.r p.g p.b)
  ⟨g8, g8, g8⟩

/-- to_grayscale: BMP.C lines 208-219.  The C iterates
`i = 0 .. width * height - 1` over the flat buffer of exactly
`width * height` pixels, i.e. it maps `grayPixel` over every pixel. -/
def to_grayscale (pixels : List Pixel24) : List Pixel24 :=
  pixels.map grayPixel

/-- Kernel: a 3x3 convolution kernel; entry `kji` is the C `k[j][i]`
(row `j`, column `i`).  The C stores `float` weights; they are embedded
as exact rationals (the spec's real-valued weights — every preset weight
is a small integer, exactly representable in `float`). -/
structure Kernel where
  k00 : ℚ
  k01 : ℚ
  k02 : ℚ
  k10 : ℚ
  k11 : ℚ
  k12 : ℚ
  k20 : ℚ
  k21 : ℚ
  k22 : ℚ

/-- kernelSum: the accumulation `sumk` of the 9 kernel weights
(BMP.C lines 239-242). -/
def kernelSum (k : Kernel) : ℚ :=
  k.k00 + k.k01 + k.k02 + k.k10 + k.k11 + k.k12 + k.k20 + k.k21 + k.k22

/-- normFactor3x3: the normalization factor actually divided by —
`sumk`, replaced by `1` when the sum is exactly zero
(BMP.C lines 243-244). -/
def normFactor3x3 (k : Kernel) : ℚ :=
  if kernelSum k = 0 then 1 else kernelSum k

/-- truncQ: the C cast `(int)` applied to the convolution result —
truncation toward zero. -/
def truncQ (q : ℚ) : Int :=
  if q < 0 then ⌈q⌉ else ⌊q⌋

/-- convAt: the interior-pixel computation of `convolve3x3`
(BMP.C lines 251-264): the 3x3 window of the source intensity plane
around `(x, y)` weighted by the kernel, divided by the normalization
factor, rounded by adding one half, truncated and clamped.  Only
invoked for `1 ≤ x` and `1 ≤ y` (an interior pixel). -/
def convAt (src : List Nat) (w : Nat) (k : Kernel) (x y : Nat) : Nat :=
  let at2 : Nat → Nat → ℚ := fun xx yy => ((src.getD (yy * w + xx) 0 : Nat) : ℚ)
  let acc : ℚ :=
    at2 (x - 1) (y - 1) * k.k00 + at2 x (y - 1) * k.k01 +
      at2 (x + 1) (y - 1) * k.k02 +
      at2 (x - 1) y * k.k10 + at2 x y * k.k11 + at2 (x + 1) y * k.k12 +
      at2 (x - 1) (y + 1) * k.k20 + at2 x (y + 1) * k.k21 +
      at2 (x + 1) (y + 1) * k.k22
  clamp_int_to_u8 (truncQ (acc / normFactor3x3 k + 1 / 2))

/-- convolve3x3: BMP.C lines 223-288, the case in which both scratch
allocations succeed.  `src` is the copy of the red channel (line 236,
the buffer is assumed grayscale so red is the intensity); the `dst`
plane is written interior-first (lines 247-266) and the four border
rows/columns are then overwritten with copies of `src` (lines 269-278)
— since those index sets are disjoint the final plane is described by
the border test below; finally `dst` is written back into all three
channels of every pixel (lines 281-284).  As in the C, the buffer holds
exactly `width * height` pixels. -/
def convolve3x3 (pixels : List Pixel24) (width height : Nat) (k : Kernel) :
    List Pixel24 :=
  let src := pixels.map Pixel24.r
  (List.range (width * height)).map fun i =>
    let y := i / width
    let x := i % width
    let v :=
      if y = 0 ∨ y = height - 1 ∨ x = 0 ∨ x = width - 1 then src.getD i 0
      else convAt src width k x y
    ⟨v, v, v⟩

/-- convolve3x3_withAlloc: `convolve3x3` including its two scratch-plane
`malloc`s (BMP.C lines 226-233), whose success is given by the two
oracle booleans.  If either fails the function frees whatever was
allocated and returns at line 232 before any write to `pixels`, so the
buffer passes through unchanged; the return type is `void`, so no error
indication reaches the caller. -/
def convolve3x3_withAlloc (srcOk dstOk : Bool) (pixels : List Pixel24)
    (width height : Nat) (k : Kernel) : List Pixel24 :=
  if srcOk && dstOk then convolve3x3 pixels width height k else pixels

/-- sobelXK: the "Sobel X" preset of the menu (BMP.C lines 372-375). -/
def sobelXK : Kernel := ⟨-1, 0, 1, -2, 0, 2, -1, 0, 1⟩

/-- sobelYK: the "Sobel Y" preset of the menu (BMP.C lines 382-385). -/
def sobelYK : Kernel := ⟨-1, -2, -1, 0, 0, 0, 1, 2, 1⟩

/-- laplacianK: the "Laplaciano" preset of the menu (BMP.C lines
392-395). -/
def laplacianK : Kernel := ⟨0, -1, 0, -1, 4, -1, 0, -1, 0⟩

/-- specGray: the specification's exact-real grayscale formula
`clamp(trunc(0.299*R + 0.587*G + 0.114*B + 0.5), 0, 255)`, written from
the claim's words (not from the source) for comparison with the code's
double-precision value: for nonnegative integer channels the truncation
of the exact rational `(299R + 587G + 114B + 500) / 1000` is its floor,
i.e. natural-number division, the lower clamp bound never binds, and
the upper bound is `min` with 255. -/
def specGray (r g b : Nat) : Nat :=
  min ((299 * r + 587 * g + 114 * b + 500) / 1000) 255

/-- bmp1x2: a 62-byte, 1-wide, 2-tall, 24-bpp stream.  The first stored
(bottom) row is one red pixel (bytes 0, 0, 255), the second stored
(top) row one blue pixel (bytes 255, 0, 0); each row carries one
nonzero padding byte (7 and 9), which a re-encode does not reproduce. -/
def bmp1x2 : List Nat :=
  [0x42, 0x4D, 62, 0, 0, 0, 0, 0, 0, 0, 54, 0, 0, 0,
   40, 0, 0, 0, 1, 0, 0, 0, 2, 0, 0, 0, 1, 0, 24, 0,
   0, 0, 0, 0, 8, 0, 0, 0, 0, 0, 0, 0, 0, 0, 0, 0,
   0, 0, 0, 0, 0, 0, 0, 0,
   0, 0, 255, 7, 255, 0, 0, 9]

/-- badSigStream: a 57-byte stream that is a valid 1-by-1 image except
that its two-character signature is "AM" instead of "BM". -/
def badSigStream : List Nat :=
  [0x41, 0x4D, 57, 0, 0, 0, 0, 0, 0, 0, 54, 0, 0, 0,
   40, 0, 0, 0, 1, 0, 0, 0, 1, 0, 0, 0, 1, 0, 24, 0,
   0, 0, 0, 0, 3, 0, 0, 0, 0, 0, 0, 0, 0, 0, 0, 0,
   0, 0, 0, 0, 0, 0, 0, 0,
   10, 20, 30]

/-- depth8Stream: a 57-byte stream that is a valid 1-by-1 image except
that its bits-per-pixel field is 8 instead of 24. -/
def depth8Stream : List Nat :=
  [0x42, 0x4D, 57, 0, 0, 0, 0, 0, 0, 0, 54, 0, 0, 0,
   40, 0, 0, 0, 1, 0, 0, 0, 1, 0, 0, 0, 1, 0, 8, 0,
   0, 0, 0, 0, 3, 0, 0, 0, 0, 0, 0, 0, 0, 0, 0, 0,
   0, 0, 0, 0, 0, 0, 0, 0,
   10, 20, 30]

/-- negWidthStream: a 57-byte stream that is a valid 1-by-1 image except
that its width field holds -10 (two's-complement bytes 246, 255, 255,
255). -/
def negWidthStream : List Nat :=
  [0x42, 0x4D, 57, 0, 0, 0, 0, 0, 0, 0, 54, 0, 0, 0,
   40, 0, 0, 0, 246, 255, 255, 255, 1, 0, 0, 0, 1, 0, 24, 0,
   0, 0, 0, 0, 3, 0, 0, 0, 0, 0, 0, 0, 0, 0, 0, 0,
   0, 0, 0, 0, 0, 0, 0, 0,
   10, 20, 30]

/-- shortHeaderStream: the first 20 bytes of a valid stream — truncated
inside the 54 header bytes. -/
def shortHeaderStream : List Nat :=
  [0x42, 0x4D, 57, 0, 0, 0, 0, 0, 0, 0, 54, 0, 0, 0,
   40, 0, 0, 0, 1, 0]

/-- c9pre: the 14 file-header bytes of the `c9Stream` family. -/
def c9pre : List Nat :=
  [0x42, 0x4D, 57, 0, 0, 0, 0, 0, 0, 0, 54, 0, 0, 0]

/-- c9suf: bytes 18-56 of the `c9Stream` family: the info-header fields
after the size field (width 1, height 1, 1 plane, 24 bpp, compression
0, image size 3, zero resolution and palette fields) and one 3-byte
pixel row. -/
def c9suf : List Nat :=
  [1, 0, 0, 0, 1, 0, 0, 0, 1, 0, 24, 0,
   0, 0, 0, 0, 3, 0, 0, 0, 0, 0, 0, 0, 0, 0, 0, 0,
   0, 0, 0, 0, 0, 0, 0, 0,
   10, 20, 30]

/-- c9Stream: a 57-byte stream that is a valid 1-by-1 image whose
InfoHeader size field (bytes 14-17) holds an arbitrary little-endian
value `n` instead of 40. -/
def c9Stream (n : Nat) : List Nat :=
  c9pre ++ ser4 n ++ c9suf

/-- px9: a concrete 3-by-3 gray pixel buffer used to instantiate the
convolution theorems. -/
def px9 : List Pixel24 :=
  [⟨10, 10, 10⟩, ⟨20, 20, 20⟩, ⟨30, 30, 30⟩,
   ⟨40, 40, 40⟩, ⟨50, 50, 50⟩, ⟨60, 60, 60⟩,
   ⟨70, 70, 70⟩, ⟨80, 80, 80⟩, ⟨90, 90, 90⟩]

/-- row5: a concrete five-pixel row used to instantiate the padding
theorem. -/
def row5 : List Pixel24 :=
  [⟨1, 2, 3⟩, ⟨4, 5, 6⟩, ⟨7, 8, 9⟩, ⟨10, 11, 12⟩, ⟨13, 14, 15⟩]

/-! Helper lemmas about the byte-level codec. -/

theorem pixelsToBytes_length (row : List Pixel24) :
    (pixelsToBytes row).length = 3 * row.length := by
  induction row with
  | nil => rfl
  | cons p rest ih =>
    simp only [pixelsToBytes, List.flatMap_cons] at *
    simp [List.length_append, ih, pixelsToBytes]
    omega

theorem bytesToPixels_pixelsToBytes (row : List Pixel24) :
    bytesToPixels (pixelsToBytes row) = row := by
  induction row with
  | nil => rfl
  | cons p rest ih =>
    simp only [pixelsToBytes, List.flatMap_cons, List.cons_append,
      List.nil_append] at *
    simp [bytesToPixels, ih]

theorem bytesToPixels_length : ∀ l : List Nat,
    (bytesToPixels l).length = l.length / 3
  | b :: g :: r :: rest => by
    simp only [bytesToPixels, List.length_cons,
      bytesToPixels_length rest]
    omega
  | [] => by simp [bytesToPixels]
  | [_] => by simp [bytesToPixels]
  | [_, _] => by simp [bytesToPixels]

theorem readRow_eq_some {data : List Nat} {pos w : Nat} {row : List Pixel24}
    (h : readRow data pos w = some row) :
    pos + 3 * w ≤ data.length ∧
      row = bytesToPixels ((data.drop pos).take (3 * w)) := by
  unfold readRow at h
  split at h
  · refine ⟨by assumption, ?_⟩
    injection h with h
    exact h.symm
  · exact absurd h (by simp)

theorem readRow_length {data : List Nat} {pos w : Nat} {row : List Pixel24}
    (h : readRow data pos w = some row) : row.length = w := by
  obtain ⟨hle, hrow⟩ := readRow_eq_some h
  subst hrow
  rw [bytesToPixels_length, List.length_take, List.length_drop]
  omega

theorem readRows_eq_some {data : List Nat} {pos w pad : Nat} :
    ∀ {n : Nat} {rows : List (List Pixel24)},
      readRows data pos w pad n = some rows →
      rows.length = n ∧ ∀ row ∈ rows, row.length = w := by
  intro n
  induction n generalizing pos with
  | zero =>
    intro rows h
    simp only [readRows] at h
    injection h with h
    subst h
    simp
  | succ n ih =>
    intro rows h
    simp only [readRows] at h
    cases hr : readRow data pos w with
    | none => rw [hr] at h; exact absurd h (by simp)
    | some row =>
      rw [hr] at h
      cases hrest : readRows data (pos + 3 * w + pad) w pad n with
      | none => rw [hrest] at h; exact absurd h (by simp)
      | some rest =>
        rw [hrest] at h
        injection h with h
        subst h
        obtain ⟨hlen, hall⟩ := ih hrest
        refine ⟨by simp [hlen], ?_⟩
        intro r hr2
        rcases List.mem_cons.mp hr2 with h1 | h1
        · subst h1; exact readRow_length hr
        · exact hall r h1

theorem readRows_getD {data : List Nat} {pos w pad : Nat} :
    ∀ {n : Nat} {rows : List (List Pixel24)},
      readRows data pos w pad n = some rows →
      ∀ t, t < n → rows.getD t [] =
        bytesToPixels ((data.drop (pos + t * (3 * w + pad))).take (3 * w)) := by
  intro n
  induction n generalizing pos with
  | zero => intro rows _ t ht; omega
  | succ n ih =>
    intro rows h t ht
    simp only [readRows] at h
    cases hr : readRow data pos w with
    | none => rw [hr] at h; exact absurd h (by simp)
    | some row =>
      rw [hr] at h
      cases hrest : readRows data (pos + 3 * w + pad) w pad n with
      | none => rw [hrest] at h; exact absurd h (by simp)
      | some rest =>
        rw [hrest] at h
        injection h with h
        subst h
        cases t with
        | zero =>
          obtain ⟨_, hrow⟩ := readRow_eq_some hr
          simpa using hrow
        | succ t =>
          have := ih hrest t (by omega)
          simp only [List.getD_cons_succ]
          rw [this]
          ring_nf

theorem readRows_of_blocks {w pad : Nat} :
    ∀ (rows : List (List Pixel24)) (pre : List Nat),
      (∀ row ∈ rows, row.length = w) →
      readRows
        (pre ++ (rows.map fun row =>
          pixelsToBytes row ++ List.replicate pad 0).flatten)
        pre.length w pad rows.length = some rows := by
  intro rows
  induction rows with
  | nil => intro pre _; simp [readRows]
  | cons row rest ih =>
    intro pre hlen
    have hrowlen : (pixelsToBytes row).length = 3 * w := by
      rw [pixelsToBytes_length, hlen row (by simp)]
    simp only [List.map_cons, List.flatten_cons, List.length_cons, readRows]
    have hassoc :
        pre ++ ((pixelsToBytes row ++ List.replicate pad 0) ++
          (rest.map fun r => pixelsToBytes r ++ List.replicate pad 0).flatten)
        = (pre ++ (pixelsToBytes row ++ List.replicate pad 0)) ++
          (rest.map fun r => pixelsToBytes r ++ List.replicate pad 0).flatten := by
      simp [List.append_assoc]
    have hdrop :
        ((pre ++ ((pixelsToBytes row ++ List.replicate pad 0) ++
          (rest.map fun r =>
            pixelsToBytes r ++ List.replicate pad 0).flatten)).drop
              pre.length)
          = (pixelsToBytes row ++ List.replicate pad 0) ++
            (rest.map fun r => pixelsToBytes r ++ List.replicate pad 0).flatten := by
      rw [List.drop_left]
    have hrow : readRow
        (pre ++ ((pixelsToBytes row ++ List.replicate pad 0) ++
          (rest.map fun r => pixelsToBytes r ++ List.replicate pad 0).flatten))
        pre.length w = some row := by
      unfold readRow
      rw [if_pos]
      · rw [hdrop]
        have : ((pixelsToBytes row ++ List.replicate pad 0) ++
            (rest.map fun r =>
              pixelsToBytes r ++ List.replicate pad 0).flatten).take (3 * w)
            = pixelsToBytes row := by
          rw [List.append_assoc, ← hrowlen, List.take_left]
        rw [this, bytesToPixels_pixelsToBytes]
      · simp only [List.length_append, List.length_replicate, hrowlen]
        omega
    rw [hrow]
    have hpre2 : pre.length + 3 * w + pad =
        (pre ++ (pixelsToBytes row ++ List.replicate pad 0)).length := by
      simp [List.length_append, hrowlen]
      omega
    rw [hpre2, hassoc, ih (pre ++ (pixelsToBytes row ++ List.replicate pad 0))
      (fun r hr => hlen r (by simp [hr]))]

theorem load_bmp24_eq_some {data : List Nat} {fh : BMPHeader}
    {ih : BMPInfoHeader} {px : List (List Pixel24)}
    (h : load_bmp24 data = some (fh, ih, px)) :
    fh = parseFH data ∧ ih = parseIH data ∧ 54 ≤ data.length ∧
      fh.bfType = 0x4D42 ∧ ih.biBitCount = 24 ∧ ih.biCompression = 0 ∧
      0 < ih.biWidth ∧ 0 < ih.biHeight ∧
      ∃ fileRows,
        readRows data fh.bfOffBits ih.biWidth.toNat
          (paddingOf ih.biWidth.toNat) ih.biHeight.toNat = some fileRows ∧
        px = fileRows.reverse := by
  unfold load_bmp24 at h
  split at h
  · exact absurd h (by simp)
  split at h
  · exact absurd h (by simp)
  split at h
  · exact absurd h (by simp)
  split at h
  · exact absurd h (by simp)
  split at h
  · exact absurd h (by simp)
  rename_i h14 h54 hsig hfmt hdim
  cases hrr : readRows data (parseFH data).bfOffBits
      (parseIH data).biWidth.toNat (paddingOf (parseIH data).biWidth.toNat)
      (parseIH data).biHeight.toNat with
  | none => rw [hrr] at h; exact absurd h (by simp)
  | some fileRows =>
    rw [hrr] at h
    injection h with h
    rw [Prod.mk.injEq, Prod.mk.injEq] at h
    obtain ⟨h1, h2, h3⟩ := h
    push_neg at hsig hfmt hdim
    subst h1
    subst h2
    refine ⟨rfl, rfl, by omega, hsig, hfmt.1, hfmt.2, hdim.1, hdim.2,
      fileRows, hrr, h3.symm⟩

theorem byteAt_lt {data : List Nat} (hb : ∀ x ∈ data, x < 256) (i : Nat) :
    byteAt data i < 256 := by
  unfold byteAt
  rcases Nat.lt_or_ge i data.length with hlt | hge
  · rw [List.getD_eq_getElem?_getD, List.getElem?_eq_getElem hlt]
    exact hb _ (List.getElem_mem hlt)
  · rw [List.getD_eq_getElem?_getD, List.getElem?_eq_none hge]
    simp

theorem le4_lt {data : List Nat} (hb : ∀ x ∈ data, x < 256) (i : Nat) :
    le4 data i < 2 ^ 32 := by
  have h0 := byteAt_lt hb i
  have h1 := byteAt_lt hb (i + 1)
  have h2 := byteAt_lt hb (i + 2)
  have h3 := byteAt_lt hb (i + 3)
  unfold le4
  omega

theorem sle4_range {data : List Nat} (hb : ∀ x ∈ data, x < 256) (i : Nat) :
    -(2 ^ 31) ≤ sle4 data i ∧ sle4 data i < 2 ^ 31 := by
  have h := le4_lt hb i
  simp only [sle4]
  split <;> constructor <;> push_cast <;> omega

theorem serFH_length (fh : BMPHeader) : (serFH fh).length = 14 := by
  simp [serFH, ser2, ser4]

theorem serIH_length (ih : BMPInfoHeader) : (serIH ih).length = 40 := by
  simp [serIH, ser2, ser4, serI4]

theorem byteAt_append_lt (l r : List Nat) (i : Nat) (h : i < l.length) :
    byteAt (l ++ r) i = byteAt l i := by
  unfold byteAt
  rw [List.getD_append l r 0 i h]

theorem byteAt_append_ge (l r : List Nat) (i : Nat) (h : l.length ≤ i) :
    byteAt (l ++ r) i = byteAt r (i - l.length) := by
  unfold byteAt
  rw [List.getD_append_right l r 0 i h]

theorem hdr_length (ih : BMPInfoHeader) :
    (serFH (saveFH ih) ++ serIH (saveIH ih)).length = 54 := by
  rw [List.length_append, serFH_length, serIH_length]

theorem save_length (ih : BMPInfoHeader) (px : List (List Pixel24)) :
    54 ≤ (save_bmp24 ih px).length := by
  unfold save_bmp24
  rw [List.append_assoc, List.length_append, List.length_append,
    serFH_length, serIH_length]
  omega

theorem byteAt_save_lt (ih : BMPInfoHeader) (px : List (List Pixel24))
    (i : Nat) (h : i < 54) :
    byteAt (save_bmp24 ih px) i =
      byteAt (serFH (saveFH ih) ++ serIH (saveIH ih)) i := by
  unfold save_bmp24
  exact byteAt_append_lt _ _ i (by rw [hdr_length]; omega)

theorem byteAt_save_ih (ih : BMPInfoHeader) (px : List (List Pixel24))
    (i j : Nat) (hij : i = 14 + j) (h54 : i < 54) :
    byteAt (save_bmp24 ih px) i = byteAt (serIH (saveIH ih)) j := by
  rw [byteAt_save_lt ih px i h54]
  rw [byteAt_append_ge _ _ i (by rw [serFH_length]; omega), serFH_length]
  congr 1
  omega

theorem byteAt_serFH_type (fh : BMPHeader) :
    byteAt (serFH fh) 0 = fh.bfType % 256 ∧
      byteAt (serFH fh) 1 = fh.bfType / 256 % 256 := by
  constructor <;> simp [serFH, ser2, ser4, byteAt]

theorem byteAt_serFH_off (fh : BMPHeader) :
    byteAt (serFH fh) 10 = fh.bfOffBits % 256 ∧
      byteAt (serFH fh) 11 = fh.bfOffBits / 256 % 256 ∧
      byteAt (serFH fh) 12 = fh.bfOffBits / 65536 % 256 ∧
      byteAt (serFH fh) 13 = fh.bfOffBits / 16777216 % 256 := by
  refine ⟨?_, ?_, ?_, ?_⟩ <;> simp [serFH, ser2, ser4, byteAt]

theorem byteAt_serIH_width (ih : BMPInfoHeader) :
    byteAt (serIH ih) 4 = (ih.biWidth % 2 ^ 32).toNat % 256 ∧
      byteAt (serIH ih) 5 = (ih.biWidth % 2 ^ 32).toNat / 256 % 256 ∧
      byteAt (serIH ih) 6 = (ih.biWidth % 2 ^ 32).toNat / 65536 % 256 ∧
      byteAt (serIH ih) 7 = (ih.biWidth % 2 ^ 32).toNat / 16777216 % 256 := by
  refine ⟨?_, ?_, ?_, ?_⟩ <;> simp [serIH, ser2, ser4, serI4, byteAt]

theorem byteAt_serIH_height (ih : BMPInfoHeader) :
    byteAt (serIH ih) 8 = (ih.biHeight % 2 ^ 32).toNat % 256 ∧
      byteAt (serIH ih) 9 = (ih.biHeight % 2 ^ 32).toNat / 256 % 256 ∧
      byteAt (serIH ih) 10 = (ih.biHeight % 2 ^ 32).toNat / 65536 % 256 ∧
      byteAt (serIH ih) 11 = (ih.biHeight % 2 ^ 32).toNat / 16777216 % 256 := by
  refine ⟨?_, ?_, ?_, ?_⟩ <;> simp [serIH, ser2, ser4, serI4, byteAt]

theorem byteAt_serIH_fmt (ih : BMPInfoHeader) :
    byteAt (serIH ih) 14 = ih.biBitCount % 256 ∧
      byteAt (serIH ih) 15 = ih.biBitCount / 256 % 256 ∧
      byteAt (serIH ih) 16 = ih.biCompression % 256 ∧
      byteAt (serIH ih) 17 = ih.biCompression / 256 % 256 ∧
      byteAt (serIH ih) 18 = ih.biCompression / 65536 % 256 ∧
      byteAt (serIH ih) 19 = ih.biCompression / 16777216 % 256 := by
  refine ⟨?_, ?_, ?_, ?_, ?_, ?_⟩ <;> simp [serIH, ser2, ser4, serI4, byteAt]

theorem save_bfType (ih : BMPInfoHeader) (px : List (List Pixel24)) :
    (parseFH (save_bmp24 ih px)).bfType = 0x4D42 := by
  show le2 (save_bmp24 ih px) 0 = 0x4D42
  unfold le2
  rw [byteAt_save_lt ih px 0 (by omega), byteAt_save_lt ih px 1 (by omega),
    byteAt_append_lt _ _ 0 (by rw [serFH_length]; omega),
    byteAt_append_lt _ _ 1 (by rw [serFH_length]; omega),
    (byteAt_serFH_type (saveFH ih)).1, (byteAt_serFH_type (saveFH ih)).2]
  have h : (saveFH ih).bfType = 0x4D42 := rfl
  rw [h]

theorem save_bfOffBits (ih : BMPInfoHeader) (px : List (List Pixel24)) :
    (parseFH (save_bmp24 ih px)).bfOffBits = 54 := by
  show le4 (save_bmp24 ih px) 10 = 54
  unfold le4
  rw [byteAt_save_lt ih px 10 (by omega), byteAt_save_lt ih px 11 (by omega),
    byteAt_save_lt ih px 12 (by omega), byteAt_save_lt ih px 13 (by omega),
    byteAt_append_lt _ _ 10 (by rw [serFH_length]; omega),
    byteAt_append_lt _ _ 11 (by rw [serFH_length]; omega),
    byteAt_append_lt _ _ 12 (by rw [serFH_length]; omega),
    byteAt_append_lt _ _ 13 (by rw [serFH_length]; omega),
    (byteAt_serFH_off (saveFH ih)).1, (byteAt_serFH_off (saveFH ih)).2.1,
    (byteAt_serFH_off (saveFH ih)).2.2.1, (byteAt_serFH_off (saveFH ih)).2.2.2]
  have h : (saveFH ih).bfOffBits = 54 := rfl
  rw [h]

theorem save_biBitCount (ih : BMPInfoHeader) (px : List (List Pixel24)) :
    (parseIH (save_bmp24 ih px)).biBitCount = 24 := by
  show le2 (save_bmp24 ih px) 28 = 24
  unfold le2
  rw [byteAt_save_ih ih px 28 14 (by norm_num) (by omega),
    byteAt_save_ih ih px 29 15 (by norm_num) (by omega),
    (byteAt_serIH_fmt (saveIH ih)).1, (byteAt_serIH_fmt (saveIH ih)).2.1]
  have h : (saveIH ih).biBitCount = 24 := rfl
  rw [h]

theorem save_biCompression (ih : BMPInfoHeader) (px : List (List Pixel24)) :
    (parseIH (save_bmp24 ih px)).biCompression = 0 := by
  show le4 (save_bmp24 ih px) 30 = 0
  unfold le4
  rw [byteAt_save_ih ih px 30 16 (by norm_num) (by omega),
    byteAt_save_ih ih px 31 17 (by norm_num) (by omega),
    byteAt_save_ih ih px 32 18 (by norm_num) (by omega),
    byteAt_save_ih ih px 33 19 (by norm_num) (by omega)]
  rw [(byteAt_serIH_fmt (saveIH ih)).2.2.1,
    (byteAt_serIH_fmt (saveIH ih)).2.2.2.1,
    (byteAt_serIH_fmt (saveIH ih)).2.2.2.2.1,
    (byteAt_serIH_fmt (saveIH ih)).2.2.2.2.2]
  have h : (saveIH ih).biCompression = 0 := rfl
  rw [h]

theorem save_le4_width (ih : BMPInfoHeader) (px : List (List Pixel24)) :
    le4 (save_bmp24 ih px) 18 = (ih.biWidth % 2 ^ 32).toNat := by
  unfold le4
  rw [byteAt_save_ih ih px 18 4 (by norm_num) (by omega),
    byteAt_save_ih ih px 19 5 (by norm_num) (by omega),
    byteAt_save_ih ih px 20 6 (by norm_num) (by omega),
    byteAt_save_ih ih px 21 7 (by norm_num) (by omega)]
  rw [(byteAt_serIH_width (saveIH ih)).1, (byteAt_serIH_width (saveIH ih)).2.1,
    (byteAt_serIH_width (saveIH ih)).2.2.1,
    (byteAt_serIH_width (saveIH ih)).2.2.2]
  have h : (saveIH ih).biWidth = ih.biWidth := rfl
  rw [h]
  omega

theorem save_le4_height (ih : BMPInfoHeader) (px : List (List Pixel24)) :
    le4 (save_bmp24 ih px) 22 = (ih.biHeight % 2 ^ 32).toNat := by
  unfold le4
  rw [byteAt_save_ih ih px 22 8 (by norm_num) (by omega),
    byteAt_save_ih ih px 23 9 (by norm_num) (by omega),
    byteAt_save_ih ih px 24 10 (by norm_num) (by omega),
    byteAt_save_ih ih px 25 11 (by norm_num) (by omega)]
  rw [(byteAt_serIH_height (saveIH ih)).1,
    (byteAt_serIH_height (saveIH ih)).2.1,
    (byteAt_serIH_height (saveIH ih)).2.2.1,
    (byteAt_serIH_height (saveIH ih)).2.2.2]
  have h : (saveIH ih).biHeight = ih.biHeight := rfl
  rw [h]
  omega

theorem save_biWidth (ih : BMPInfoHeader) (px : List (List Pixel24))
    (h1 : -(2 ^ 31) ≤ ih.biWidth) (h2 : ih.biWidth < 2 ^ 31) :
    (parseIH (save_bmp24 ih px)).biWidth = ih.biWidth := by
  simp only [parseIH]
  simp only [sle4, save_le4_width ih px]
  split <;> omega

theorem save_biHeight (ih : BMPInfoHeader) (px : List (List Pixel24))
    (h1 : -(2 ^ 31) ≤ ih.biHeight) (h2 : ih.biHeight < 2 ^ 31) :
    (parseIH (save_bmp24 ih px)).biHeight = ih.biHeight := by
  simp only [parseIH]
  simp only [sle4, save_le4_height ih px]
  split <;> omega

theorem c9_len (n : Nat) : (c9Stream n).length = 57 := by
  simp [c9Stream, c9pre, c9suf, ser4]

theorem c9_byteAt_lt (n i : Nat) (h : i < 14) :
    byteAt (c9Stream n) i = byteAt c9pre i := by
  unfold c9Stream
  rw [List.append_assoc]
  exact byteAt_append_lt c9pre _ i (by simp [c9pre]; omega)

theorem c9_byteAt_ge (n i j : Nat) (hij : i = 18 + j) :
    byteAt (c9Stream n) i = byteAt c9suf j := by
  unfold c9Stream
  rw [byteAt_append_ge (c9pre ++ ser4 n) c9suf i
    (by simp [c9pre, ser4]; omega)]
  congr 1
  simp [c9pre, ser4]
  omega

theorem c9_bfType (n : Nat) : (parseFH (c9Stream n)).bfType = 0x4D42 := by
  show le2 (c9Stream n) 0 = 0x4D42
  unfold le2
  rw [c9_byteAt_lt n 0 (by omega), c9_byteAt_lt n 1 (by omega)]
  decide

theorem c9_bfOffBits (n : Nat) : (parseFH (c9Stream n)).bfOffBits = 54 := by
  show le4 (c9Stream n) 10 = 54
  unfold le4
  rw [c9_byteAt_lt n 10 (by omega), c9_byteAt_lt n 11 (by omega),
    c9_byteAt_lt n 12 (by omega), c9_byteAt_lt n 13 (by omega)]
  decide

theorem c9_biBitCount (n : Nat) : (parseIH (c9Stream n)).biBitCount = 24 := by
  show le2 (c9Stream n) 28 = 24
  unfold le2
  rw [c9_byteAt_ge n 28 10 (by norm_num), c9_byteAt_ge n 29 11 (by norm_num)]
  decide

theorem c9_biCompression (n : Nat) : (parseIH (c9Stream n)).biCompression = 0 := by
  show le4 (c9Stream n) 30 = 0
  unfold le4
  rw [c9_byteAt_ge n 30 12 (by norm_num), c9_byteAt_ge n 31 13 (by norm_num),
    c9_byteAt_ge n 32 14 (by norm_num), c9_byteAt_ge n 33 15 (by norm_num)]
  decide

theorem c9_biWidth (n : Nat) : (parseIH (c9Stream n)).biWidth = 1 := by
  simp only [parseIH]
  simp only [sle4, le4]
  rw [c9_byteAt_ge n 18 0 (by norm_num), c9_byteAt_ge n 19 1 (by norm_num),
    c9_byteAt_ge n 20 2 (by norm_num), c9_byteAt_ge n 21 3 (by norm_num)]
  decide

theorem c9_biHeight (n : Nat) : (parseIH (c9Stream n)).biHeight = 1 := by
  simp only [parseIH]
  simp only [sle4, le4]
  rw [c9_byteAt_ge n 22 4 (by norm_num), c9_byteAt_ge n 23 5 (by norm_num),
    c9_byteAt_ge n 24 6 (by norm_num), c9_byteAt_ge n 25 7 (by norm_num)]
  decide

theorem c9_drop54 (n : Nat) : (c9Stream n).drop 54 = [10, 20, 30] := by
  unfold c9Stream
  have h18 : (c9pre ++ ser4 n).length = 18 := by simp [c9pre, ser4]
  have : (54 : Nat) = (c9pre ++ ser4 n).length + 36 := by rw [h18]
  rw [this, List.drop_append]
  decide

theorem c9_readRows (n : Nat) :
    readRows (c9Stream n) 54 1 (paddingOf 1) 1 = some [[⟨10, 20, 30⟩]] := by
  have hpad : paddingOf 1 = 1 := by decide
  rw [hpad]
  unfold readRows readRow
  rw [if_pos (by rw [c9_len])]
  rw [c9_drop54]
  rfl

theorem getD_range_map {α : Type} (n i : Nat) (f : Nat → α) (d : α)
    (h : i < n) : ((List.range n).map f).getD i d = f i := by
  rw [List.getD_eq_getElem?_getD, List.getElem?_map, List.getElem?_range h]
  rfl

theorem clamp_le_255 (v : Int) : clamp_int_to_u8 v ≤ 255 := by
  unfold clamp_int_to_u8
  split
  · omega
  split <;> omega

set_option maxRecDepth 100000 in
theorem grayPixel_fix : ∀ v : Fin 256,
    grayPixel ⟨v.val, v.val, v.val⟩ = ⟨v.val, v.val, v.val⟩ := by decide

/-! Claim theorems. -/

/-- C1: for every byte stream that decode accepts, re-encoding the
decoded pixel buffer with its metadata and decoding the result yields a
pixel buffer identical pixel-for-pixel (the same list of rows of
`Pixel24` values) to the first decode's output, even though the raw
re-encoded bytes may differ from the original stream. -/
theorem decode_encode_decode_roundtrip (data : List Nat)
    (hb : ∀ x ∈ data, x < 256) (fh : BMPHeader) (ih : BMPInfoHeader)
    (px : List (List Pixel24)) (h : load_bmp24 data = some (fh, ih, px)) :
    ∃ fh2 ih2, load_bmp24 (save_bmp24 ih px) = some (fh2, ih2, px) := by
  obtain ⟨hfh, hih, hlen, hsig, hbc, hcomp, hwpos, hhpos, fileRows, hrr, hpx⟩ :=
    load_bmp24_eq_some h
  subst hfh
  subst hih
  obtain ⟨hrlen, hrall⟩ := readRows_eq_some hrr
  have hwrange : -(2 ^ 31) ≤ (parseIH data).biWidth ∧
      (parseIH data).biWidth < 2 ^ 31 := sle4_range hb 18
  have hhrange : -(2 ^ 31) ≤ (parseIH data).biHeight ∧
      (parseIH data).biHeight < 2 ^ 31 := sle4_range hb 22
  have hpxall : ∀ row ∈ px.reverse,
      row.length = (parseIH data).biWidth.toNat := by
    intro row hrow
    apply hrall
    rw [hpx] at hrow
    simpa using hrow
  have hcnt : px.reverse.length = (parseIH data).biHeight.toNat := by
    rw [hpx]
    simpa using hrlen
  have hblocks := @readRows_of_blocks (parseIH data).biWidth.toNat
    (paddingOf (parseIH data).biWidth.toNat) px.reverse
    (serFH (saveFH (parseIH data)) ++ serIH (saveIH (parseIH data))) hpxall
  rw [hdr_length, hcnt] at hblocks
  have hblocks2 : readRows (save_bmp24 (parseIH data) px) 54
      (parseIH data).biWidth.toNat (paddingOf (parseIH data).biWidth.toNat)
      (parseIH data).biHeight.toNat = some px.reverse := hblocks
  refine ⟨parseFH (save_bmp24 (parseIH data) px),
    parseIH (save_bmp24 (parseIH data) px), ?_⟩
  unfold load_bmp24
  rw [if_neg (by have := save_length (parseIH data) px; omega),
    if_neg (by have := save_length (parseIH data) px; omega),
    if_neg (by rw [save_bfType]; omega),
    if_neg (by rw [save_biBitCount, save_biCompression]; omega),
    if_neg (by rw [save_biWidth _ _ hwrange.1 hwrange.2,
      save_biHeight _ _ hhrange.1 hhrange.2]; push_neg; exact ⟨hwpos, hhpos⟩)]
  rw [save_bfOffBits, save_biWidth _ _ hwrange.1 hwrange.2,
    save_biHeight _ _ hhrange.1 hhrange.2, hblocks2]
  rw [hpx]
  simp

/-- Witness for C1: the concrete accepted stream `bmp1x2` decodes to
the blue-over-red buffer, and re-encoding then decoding returns the
identical buffer. -/
theorem decode_encode_decode_roundtrip_witness :
    load_bmp24 bmp1x2 = some (⟨0x4D42, 62, 0, 0, 54⟩,
      ⟨40, 1, 2, 1, 24, 0, 8, 0, 0, 0, 0⟩,
      [[⟨255, 0, 0⟩], [⟨0, 0, 255⟩]]) ∧
    ∃ fh2 ih2, load_bmp24 (save_bmp24 ⟨40, 1, 2, 1, 24, 0, 8, 0, 0, 0, 0⟩
      [[⟨255, 0, 0⟩], [⟨0, 0, 255⟩]]) =
        some (fh2, ih2, [[⟨255, 0, 0⟩], [⟨0, 0, 255⟩]]) := by
  refine ⟨by decide, ?_⟩
  exact decode_encode_decode_roundtrip bmp1x2 (by decide)
    ⟨0x4D42, 62, 0, 0, 54⟩ ⟨40, 1, 2, 1, 24, 0, 8, 0, 0, 0, 0⟩
    [[⟨255, 0, 0⟩], [⟨0, 0, 255⟩]] (by decide)

/-- C2: for every accepted stream, the stored row read at file position
`r` (rows are stored bottom-to-top, each `3 * width` pixel bytes
followed by the padding) is placed at buffer row `height - 1 - r`, so
buffer row 0 is the visual top row. -/
theorem decode_places_stored_rows_bottom_up (data : List Nat)
    (fh : BMPHeader) (ih : BMPInfoHeader) (px : List (List Pixel24))
    (h : load_bmp24 data = some (fh, ih, px)) (r : Nat)
    (hr : r < ih.biHeight.toNat) :
    px.getD (ih.biHeight.toNat - 1 - r) [] =
      bytesToPixels ((data.drop (fh.bfOffBits +
        r * (3 * ih.biWidth.toNat + paddingOf ih.biWidth.toNat))).take
        (3 * ih.biWidth.toNat)) := by
  obtain ⟨hfh, hih, hlen, hsig, hbc, hcomp, hwpos, hhpos, fileRows, hrr, hpx⟩ :=
    load_bmp24_eq_some h
  subst hfh
  subst hih
  obtain ⟨hrlen, _⟩ := readRows_eq_some hrr
  have hgd := readRows_getD hrr r hr
  rw [hpx]
  rw [List.getD_eq_getElem?_getD,
    List.getElem?_reverse (by omega : (parseIH data).biHeight.toNat - 1 - r <
      fileRows.length)]
  have hidx : fileRows.length - 1 - ((parseIH data).biHeight.toNat - 1 - r)
      = r := by omega
  rw [hidx, ← List.getD_eq_getElem?_getD, hgd]

/-- Witness for C2: `bmp1x2` stores a red row first and a blue row
second; the decoded buffer has the blue pixel at row 0 (top) and the
red pixel at row 1 (bottom), and each buffer row `2 - 1 - r` equals the
bytes of stored row `r`. -/
theorem decode_places_stored_rows_bottom_up_witness :
    load_bmp24 bmp1x2 = some (⟨0x4D42, 62, 0, 0, 54⟩,
      ⟨40, 1, 2, 1, 24, 0, 8, 0, 0, 0, 0⟩,
      [[⟨255, 0, 0⟩], [⟨0, 0, 255⟩]]) ∧
    ([[⟨255, 0, 0⟩], [⟨0, 0, 255⟩]] : List (List Pixel24)).getD 1 [] =
      bytesToPixels ((bmp1x2.drop (54 + 0 * (3 * 1 + paddingOf 1))).take
        (3 * 1)) ∧
    ([[⟨255, 0, 0⟩], [⟨0, 0, 255⟩]] : List (List Pixel24)).getD 0 [] =
      bytesToPixels ((bmp1x2.drop (54 + 1 * (3 * 1 + paddingOf 1))).take
        (3 * 1)) := by
  refine ⟨by decide, ?_, ?_⟩
  · exact decode_places_stored_rows_bottom_up bmp1x2 ⟨0x4D42, 62, 0, 0, 54⟩
      ⟨40, 1, 2, 1, 24, 0, 8, 0, 0, 0, 0⟩ [[⟨255, 0, 0⟩], [⟨0, 0, 255⟩]]
      (by decide) 0 (by decide)
  · exact decode_places_stored_rows_bottom_up bmp1x2 ⟨0x4D42, 62, 0, 0, 54⟩
      ⟨40, 1, 2, 1, 24, 0, 8, 0, 0, 0, 0⟩ [[⟨255, 0, 0⟩], [⟨0, 0, 255⟩]]
      (by decide) 1 (by decide)

/-- C3 counterexample: the claim's exact-real formula
`clamp(trunc(0.299*R + 0.587*G + 0.114*B + 0.5), 0, 255)` gives 23 at
the pixel (R, G, B) = (0, 36, 12) — the exact weighted sum is 22.5, a
halfway value — but the code's double-precision evaluation (BMP.C line
215) computes a value just below 23.0 and truncates to 22, so the
transform writes 22, not the claimed exact-formula value. -/
theorem grayscale_exact_formula_counterexample :
    to_grayscale [⟨12, 36, 0⟩] = [⟨22, 22, 22⟩] ∧ specGray 0 36 12 = 23 := by
  refine ⟨?_, ?_⟩ <;> decide

/-- C3 amended: the grayscale transform sets all three channels to
`clamp(trunc(F), 0, 255)` where `F` is the IEEE-754 double-precision
evaluation of `0.299*R + 0.587*G + 0.114*B + 0.5`; this agrees with the
exact-real formula at the four cited example pixels — (255,0,0) maps to
76, (0,255,0) to 150, (0,0,255) to 29 and (255,255,255) to 255 — though
not at every halfway input. -/
theorem grayscale_examples :
    to_grayscale [⟨0, 0, 255⟩, ⟨0, 255, 0⟩, ⟨255, 0, 0⟩, ⟨255, 255, 255⟩] =
      [⟨76, 76, 76⟩, ⟨150, 150, 150⟩, ⟨29, 29, 29⟩, ⟨255, 255, 255⟩] ∧
    specGray 255 0 0 = 76 ∧ specGray 0 255 0 = 150 ∧
    specGray 0 0 255 = 29 ∧ specGray 255 255 255 = 255 := by
  refine ⟨?_, ?_, ?_, ?_, ?_⟩ <;> decide

/-- C4: for every buffer of `width * height` pixels with both
dimensions at least 3 and every kernel, each border pixel (row 0, row
`height - 1`, column 0, column `width - 1`) of the convolution output
equals its pre-convolution source intensity (the red channel of the
input pixel, written into all three channels), and each interior pixel
is `convAt` of the pre-convolution source plane `pixels.map Pixel24.r`
— never of partially-overwritten output. -/
theorem convolve_border_copy_interior_from_src (px : List Pixel24)
    (w h : Nat) (k : Kernel) (hpx : px.length = w * h)
    (hw : 3 ≤ w) (hh : 3 ≤ h) (x y : Nat) (hx : x < w) (hy : y < h) :
    ((y = 0 ∨ y = h - 1 ∨ x = 0 ∨ x = w - 1) →
      (convolve3x3 px w h k).getD (y * w + x) ⟨0, 0, 0⟩ =
        ⟨(px.map Pixel24.r).getD (y * w + x) 0,
          (px.map Pixel24.r).getD (y * w + x) 0,
          (px.map Pixel24.r).getD (y * w + x) 0⟩) ∧
    (1 ≤ x → x ≤ w - 2 → 1 ≤ y → y ≤ h - 2 →
      (convolve3x3 px w h k).getD (y * w + x) ⟨0, 0, 0⟩ =
        ⟨convAt (px.map Pixel24.r) w k x y,
          convAt (px.map Pixel24.r) w k x y,
          convAt (px.map Pixel24.r) w k x y⟩) := by
  have hi : y * w + x < w * h := by
    have h1 : y * w + x < (y + 1) * w := by
      rw [Nat.succ_mul]
      omega
    have h2 : (y + 1) * w ≤ h * w := Nat.mul_le_mul_right w (by omega)
    calc y * w + x < (y + 1) * w := h1
      _ ≤ h * w := h2
      _ = w * h := Nat.mul_comm h w
  have hdiv : (y * w + x) / w = y := by
    rw [Nat.add_comm, Nat.add_mul_div_right _ _ (by omega : 0 < w),
      Nat.div_eq_of_lt hx]
    omega
  have hmod : (y * w + x) % w = x := by
    rw [Nat.add_comm, Nat.add_mul_mod_self_right, Nat.mod_eq_of_lt hx]
  unfold convolve3x3
  rw [getD_range_map _ _ _ _ hi]
  simp only [hdiv, hmod]
  constructor
  · intro hb
    rw [if_pos hb]
  · intro h1 h2 h3 h4
    rw [if_neg (by omega)]

/-- Witness for C4: on the concrete 3-by-3 buffer `px9` with the Sobel
X kernel, the corner pixel (0, 0) is copied from the source plane and
the center pixel (1, 1) is the `convAt` value of the source plane. -/
theorem convolve_border_copy_interior_from_src_witness :
    (convolve3x3 px9 3 3 sobelXK).getD (0 * 3 + 0) ⟨0, 0, 0⟩ =
      ⟨(px9.map Pixel24.r).getD (0 * 3 + 0) 0,
        (px9.map Pixel24.r).getD (0 * 3 + 0) 0,
        (px9.map Pixel24.r).getD (0 * 3 + 0) 0⟩ ∧
    (convolve3x3 px9 3 3 sobelXK).getD (1 * 3 + 1) ⟨0, 0, 0⟩ =
      ⟨convAt (px9.map Pixel24.r) 3 sobelXK 1 1,
        convAt (px9.map Pixel24.r) 3 sobelXK 1 1,
        convAt (px9.map Pixel24.r) 3 sobelXK 1 1⟩ := by
  constructor
  · exact (convolve_border_copy_interior_from_src px9 3 3 sobelXK (by decide)
      (by decide) (by decide) 0 0 (by decide) (by decide)).1
      (Or.inl rfl)
  · exact (convolve_border_copy_interior_from_src px9 3 3 sobelXK (by decide)
      (by decide) (by decide) 1 1 (by decide) (by decide)).2
      (by decide) (by decide) (by decide) (by decide)

/-- C5: for every kernel the divisor actually used by the convolution
is the sum of the 9 weights, replaced by 1 exactly when that sum is 0,
so the divisor is never zero — including for zero-sum presets. -/
theorem convolve_normalizer_never_zero (k : Kernel) :
    normFactor3x3 k ≠ 0 ∧ (kernelSum k = 0 → normFactor3x3 k = 1) := by
  constructor
  · unfold normFactor3x3
    split
    · exact one_ne_zero
    · rename_i hne
      exact hne
  · intro h
    unfold normFactor3x3
    rw [if_pos h]

/-- Witness for C5: the Laplacian preset sums to zero and its divisor
falls back to 1. -/
theorem convolve_normalizer_never_zero_witness :
    normFactor3x3 laplacianK = 1 :=
  (convolve_normalizer_never_zero laplacianK).2
    (by norm_num [kernelSum, laplacianK])

/-- C6 counterexample: the claim says each invalid input yields a
distinct tagged error surfaced to the caller, but `load_bmp24` returns
the same untagged failure (the C function returns `0`, modelled as
`none`) for every failure cause: a wrong-signature stream and an
8-bit-per-pixel stream produce identical caller-visible results, so no
per-cause tag reaches the caller. -/
theorem load_failure_untagged_counterexample :
    load_bmp24 badSigStream = load_bmp24 depth8Stream ∧
      load_bmp24 badSigStream = none := by
  refine ⟨?_, ?_⟩ <;> decide

/-- C6 amended: decode does reject each of the four invalid inputs — a
wrong two-character signature, bits-per-pixel 8, width -10, and a
stream truncated after 20 bytes — but it surfaces the same untagged
failure result to the caller in every case; the distinct diagnostics
are `fprintf`s to stderr (and the truncated-header case prints
nothing), not tagged values returned to the caller. -/
theorem load_rejects_invalid_inputs :
    load_bmp24 badSigStream = none ∧ load_bmp24 depth8Stream = none ∧
      load_bmp24 negWidthStream = none ∧
      load_bmp24 shortHeaderStream = none := by
  refine ⟨?_, ?_, ?_, ?_⟩ <;> decide

/-- C7: for every width at least 1 (the decoder only produces positive
widths), the per-row padding used identically by decode and encode is
the least nonnegative value making `3 * w + padding` a multiple of 4,
`3 * w + padding` is `3 * w` rounded up to the next multiple of 4, and
every encoded row block (`width` pixels then the padding zeros)
occupies exactly that many bytes. -/
theorem padding_minimal_multiple_of_four (w : Nat) (hw : 1 ≤ w) :
    (3 * w + paddingOf w) % 4 = 0 ∧
    (∀ q, q < paddingOf w → (3 * w + q) % 4 ≠ 0) ∧
    3 * w + paddingOf w = 4 * ((3 * w + 3) / 4) ∧
    ∀ row : List Pixel24, row.length = w →
      (pixelsToBytes row ++ List.replicate (paddingOf w) 0).length =
        3 * w + paddingOf w := by
  refine ⟨?_, ?_, ?_, ?_⟩
  · unfold paddingOf
    omega
  · intro q hq
    unfold paddingOf at *
    omega
  · unfold paddingOf
    omega
  · intro row hrow
    rw [List.length_append, pixelsToBytes_length, hrow, List.length_replicate]

/-- Witness for C7: at width 5 the padding is 1, the encoded row block
of the concrete row `row5` is 16 bytes, a multiple of 4 equal to 15
rounded up. -/
theorem padding_minimal_multiple_of_four_witness :
    (3 * 5 + paddingOf 5) % 4 = 0 ∧
    3 * 5 + paddingOf 5 = 4 * ((3 * 5 + 3) / 4) ∧
    (pixelsToBytes row5 ++ List.replicate (paddingOf 5) 0).length =
      3 * 5 + paddingOf 5 :=
  ⟨(padding_minimal_multiple_of_four 5 (by norm_num)).1,
    (padding_minimal_multiple_of_four 5 (by norm_num)).2.2.1,
    (padding_minimal_multiple_of_four 5 (by norm_num)).2.2.2 row5 (by decide)⟩

/-- C8: applying the grayscale transform twice yields exactly the same
buffer as applying it once: every pixel the transform produces has all
three channels equal to a value at most 255, and every such pixel is a
fixed point of the transform. -/
theorem grayscale_idempotent (pixels : List Pixel24) :
    to_grayscale (to_grayscale pixels) = to_grayscale pixels := by
  unfold to_grayscale
  rw [List.map_map]
  apply List.map_congr_left
  intro p _
  show grayPixel (grayPixel p) = grayPixel p
  have hle : clamp_int_to_u8 (grayD p.r p.g p.b) ≤ 255 := clamp_le_255 _
  have h1 : grayPixel p = ⟨clamp_int_to_u8 (grayD p.r p.g p.b),
      clamp_int_to_u8 (grayD p.r p.g p.b),
      clamp_int_to_u8 (grayD p.r p.g p.b)⟩ := rfl
  rw [h1]
  exact grayPixel_fix ⟨clamp_int_to_u8 (grayD p.r p.g p.b), by omega⟩

/-- C9 counterexample: the claim says decode rejects every stream whose
InfoHeader size field differs from 40, but `load_bmp24` never inspects
that field: the concrete stream `c9Stream 124`, identical to a valid
1-by-1 image except that its size field holds 124, is accepted, and
the parsed header returned to the caller carries `biSize = 124`. -/
theorem load_accepts_header_size_124 :
    load_bmp24 (c9Stream 124) =
      some (⟨0x4D42, 57, 0, 0, 54⟩, ⟨124, 1, 1, 1, 24, 0, 3, 0, 0, 0, 0⟩,
        [[⟨10, 20, 30⟩]]) := by
  decide

/-- C9 amended: decode does not validate the InfoHeader size field at
all — for every little-endian value `n` stored in bytes 14-17, the
stream (valid in every other field) is accepted. -/
theorem load_ignores_header_size_field (n : Nat) :
    (load_bmp24 (c9Stream n)).isSome = true := by
  unfold load_bmp24
  rw [if_neg (by rw [c9_len]; omega), if_neg (by rw [c9_len]; omega),
    if_neg (by rw [c9_bfType]; omega),
    if_neg (by rw [c9_biBitCount, c9_biCompression]; omega),
    if_neg (by rw [c9_biWidth, c9_biHeight]; omega)]
  rw [c9_bfOffBits, c9_biWidth, c9_biHeight]
  have h1 : ((1 : Int)).toNat = 1 := rfl
  rw [h1, c9_readRows]
  rfl

/-- C10: if either scratch-plane allocation inside the convolution
fails, the function returns before modifying any pixel, so the buffer
passes through completely unchanged; the C function returns `void`, so
no error indication reaches the caller. -/
theorem convolve_alloc_failure_leaves_buffer (srcOk dstOk : Bool)
    (pixels : List Pixel24) (width height : Nat) (k : Kernel)
    (hfail : srcOk = false ∨ dstOk = false) :
    convolve3x3_withAlloc srcOk dstOk pixels width height k = pixels := by
  rcases hfail with h | h <;> subst h <;>
    simp [convolve3x3_withAlloc]

/-- Witness for C10: a failed source-plane allocation leaves the
concrete buffer `px9` untouched. -/
theorem convolve_alloc_failure_leaves_buffer_witness :
    convolve3x3_withAlloc false true px9 3 3 sobelXK = px9 :=
  convolve_alloc_failure_leaves_buffer false true px9 3 3 sobelXK
    (Or.inl rfl)
